import Mathlib

/-!
Verification of `src/crates/editor/src/hover_popover.rs` (zed hover popover).

The Rust source is embedded shallowly:
* pure rendering (`render_blocks`, `render_code`, `new_paragraph`) becomes pure
  Lean functions on an explicit `RenderSt` accumulator; text is a `List Char`
  and all offsets are UTF-8 byte offsets (Rust `String::len`), computed by
  `strBytes`;
* the stateful entry points (`show_hover`, `hide_hover`) become functions on an
  explicit `Editor` record, with the editor/buffer environment (anchor
  resolution, excerpt lookup, anchor comparison) passed as a record of
  functions `Env`;
* the asynchronous task spawned by `show_hover` is straight-line code; its
  suspension/effect structure is captured by the event list `taskTrace`, and
  its two state-mutating steps by `applyResponse` (the LSP-response handler);
* external collaborators (the pulldown_cmark markdown parser, the language
  registry, syntax highlighting, the theme) are parameters: the markdown
  parser is a `String → List MdEvent` argument, a language is its
  `highlight_text` function, and the theme's syntax map is a
  `Nat → Option HighlightStyle` function.
-/

namespace HoverPopover

/-- Model of `gpui::color::Color`; only `Color::red()` is used by the source
(`hover_popover.rs` line 329). -/
inductive Color where
  | red
deriving DecidableEq, Repr

/-- Model of `gpui::fonts::Weight`; only `Weight::BOLD` is used. -/
inductive Weight where
  | bold
deriving DecidableEq, Repr

/-- Model of `gpui::fonts::Underline`. The source sets `thickness: 1.0.into()`;
thickness is only ever compared for equality, so it is modelled as a `Nat`
(default 0, the source's value 1). -/
structure Underline where
  color : Option Color := none
  thickness : Nat := 0
  squiggly : Bool := false
deriving DecidableEq, Repr

/-- Model of `gpui::fonts::HighlightStyle`, restricted to the fields the
source reads or writes (`color`, `weight`, `italic`, `underline`). -/
structure HighlightStyle where
  color : Option Color := none
  weight : Option Weight := none
  italic : Option Bool := none
  underline : Option Underline := none
deriving DecidableEq, Repr

/-- Model of `HighlightStyle::default()`. -/
def HighlightStyle.default : HighlightStyle := {}

/-- UTF-8 byte length of a character list: mirrors Rust `String::len`,
which the source uses for every highlight/link offset. -/
def strBytes (t : List Char) : Nat := (t.map Char.utf8Size).sum

/-- UTF-8 byte length of a `String`. -/
def strLen (s : String) : Nat := strBytes s.toList

/-- Model of `project::HoverBlockKind`. -/
inductive HoverBlockKind where
  | plainText
  | markdown
  | code (language : String)
deriving DecidableEq, Repr

/-- Model of `project::HoverBlock`. -/
structure HoverBlock where
  text : String
  kind : HoverBlockKind
deriving DecidableEq, Repr

/-- A language, reduced to what `render_code` uses of it:
`language.highlight_text(&content.into(), 0..content.len())`, a list of
(byte-range, highlight-id) pairs for the given content. -/
structure Language where
  highlight_text : String → List ((Nat × Nat) × Nat)

/-- The language registry: `language_for_name(name).now_or_never()
.and_then(Result::ok)` collapses to a partial map from names to languages. -/
def Registry := String → Option Language

/-- Model of `EditorStyle`, reduced to the theme's syntax map consulted by
`highlight_id.style(&style.syntax)` in `render_code`. -/
structure EditorStyle where
  syn : Nat → Option HighlightStyle

/-- Model of `new_paragraph` (`hover_popover.rs` lines 431-438): on non-empty text,
push `'\n'` unless the text already ends with one, then push `'\n'`. -/
def new_paragraph (t : List Char) : List Char :=
  if t = [] then t
  else (if t.getLast? = some '\n' then t else t ++ ['\n']) ++ ['\n']

/-- The growing output accumulator of `render_blocks`: the flat text and the
three side tables (`highlights`, `link_ranges`, `link_urls`). -/
structure RenderSt where
  text : List Char
  highlights : List ((Nat × Nat) × HighlightStyle)
  link_ranges : List (Nat × Nat)
  link_urls : List String

/-- The per-markdown-block scan state of `render_blocks`
(`bold_depth`, `italic_depth`, `link_url`, `current_language`, `list_stack`). -/
structure MdSt where
  bold_depth : Int
  italic_depth : Int
  link_url : Option (Nat × String)
  current_language : Option Language
  list_stack : List (Option Nat)

/-- Fresh markdown scan state, as initialised at the top of the
`HoverBlockKind::Markdown` arm. -/
def MdSt.init : MdSt :=
  { bold_depth := 0, italic_depth := 0, link_url := none,
    current_language := none, list_stack := [] }

/-- Model of `pulldown_cmark::CodeBlockKind`. -/
inductive MdCodeBlockKind where
  | indented
  | fenced (language : String)
deriving DecidableEq, Repr

/-- Model of the `pulldown_cmark::Tag`s the source matches on; every tag the
source ignores is collapsed into `other`. -/
inductive MdTag where
  | paragraph
  | heading
  | codeBlock (kind : MdCodeBlockKind)
  | emphasis
  | strong
  | link (url : String)
  | list (number : Option Nat)
  | item
  | other
deriving DecidableEq, Repr

/-- Model of the `pulldown_cmark::Event`s the source matches on. -/
inductive MdEvent where
  | text (t : String)
  | code (t : String)
  | start (tag : MdTag)
  | endTag (tag : MdTag)
  | hardBreak
  | softBreak
  | other
deriving DecidableEq, Repr

/-- The markdown parser `pulldown_cmark::Parser::new_ext(text, Options::all())`
is an external crate; it is modelled as a function argument producing the
event stream for a markdown source string. -/
def MdParse := String → List MdEvent

/-- Model of `render_code` (`hover_popover.rs` lines 415-429): append `content`, then
push each resolvable syntax highlight shifted by the previous text length. -/
def render_code (rs : RenderSt) (content : String) (language : Language)
    (style : EditorStyle) : RenderSt :=
  let prev_len := strBytes rs.text
  { rs with
    text := rs.text ++ content.toList
    highlights := (language.highlight_text content).foldl
      (fun acc rh =>
        match style.syn rh.2 with
        | some st => acc ++ [((prev_len + rh.1.1, prev_len + rh.1.2), st)]
        | none => acc)
      rs.highlights }

/-- The style computed for a markdown text token from the current nesting
state (`hover_popover.rs` lines 296-308). -/
def mdTextStyle (md : MdSt) : HighlightStyle :=
  { weight := if md.bold_depth > 0 then some Weight.bold else none
    italic := if md.italic_depth > 0 then some true else none
    underline := if md.link_url.isSome then some { thickness := 1 } else none }

/-- One iteration of the event loop in the `HoverBlockKind::Markdown` arm of
`render_blocks` (`hover_popover.rs` lines 281-390). -/
def mdStep (registry : Registry) (style : EditorStyle)
    (s : RenderSt × MdSt) (e : MdEvent) : RenderSt × MdSt :=
  let rs := s.1
  let md := s.2
  let prev_len := strBytes rs.text
  match e with
  | .text t =>
    match md.current_language with
    | some language => (render_code rs t language style, md)
    | none =>
      let text' := rs.text ++ t.toList
      let st := mdTextStyle md
      let highlights' :=
        if st ≠ HighlightStyle.default then
          match rs.highlights.getLast? with
          | some ((a, b), ls) =>
            if b = prev_len ∧ ls = st then
              rs.highlights.dropLast ++ [((a, strBytes text'), ls)]
            else
              rs.highlights ++ [((prev_len, strBytes text'), st)]
          | none => rs.highlights ++ [((prev_len, strBytes text'), st)]
        else rs.highlights
      ({ rs with text := text', highlights := highlights' }, md)
  | .code t =>
    ({ rs with
        text := rs.text ++ t.toList
        highlights := rs.highlights ++
          [((prev_len, prev_len + strLen t), { color := some Color.red })] },
      md)
  | .start tag =>
    match tag with
    | .paragraph => ({ rs with text := new_paragraph rs.text }, md)
    | .heading =>
      ({ rs with text := new_paragraph rs.text },
        { md with bold_depth := md.bold_depth + 1 })
    | .codeBlock kind =>
      let md' :=
        match kind with
        | .fenced language => { md with current_language := registry language }
        | .indented => md
      ({ rs with text := new_paragraph rs.text }, md')
    | .emphasis => (rs, { md with italic_depth := md.italic_depth + 1 })
    | .strong => (rs, { md with bold_depth := md.bold_depth + 1 })
    | .link url => (rs, { md with link_url := some (prev_len, url) })
    | .list number => (rs, { md with list_stack := md.list_stack ++ [number] })
    | .item =>
      let len := md.list_stack.length
      match md.list_stack.getLast? with
      | some list_state =>
        let t1 := new_paragraph rs.text
        let t2 := t1 ++ (List.replicate (len - 1) "  ".toList).flatten
        match list_state with
        | some number =>
          ({ rs with text := t2 ++ (toString number).toList ++ ". ".toList },
            { md with list_stack := md.list_stack.dropLast ++ [some (number + 1)] })
        | none => ({ rs with text := t2 ++ "* ".toList }, md)
      | none => (rs, md)
    | .other => (rs, md)
  | .endTag tag =>
    match tag with
    | .heading => (rs, { md with bold_depth := md.bold_depth - 1 })
    | .codeBlock _ => (rs, { md with current_language := none })
    | .emphasis => (rs, { md with italic_depth := md.italic_depth - 1 })
    | .strong => (rs, { md with bold_depth := md.bold_depth - 1 })
    | .link _ =>
      match md.link_url with
      | some (start_offset, url) =>
        ({ rs with
            link_ranges := rs.link_ranges ++ [(start_offset, strBytes rs.text)]
            link_urls := rs.link_urls ++ [url] },
          { md with link_url := none })
      | none => (rs, md)
    | .list _ => (rs, { md with list_stack := md.list_stack.dropLast })
    | .paragraph => (rs, md)
    | .item => (rs, md)
    | .other => (rs, md)
  | .hardBreak => ({ rs with text := rs.text ++ ['\n'] }, md)
  | .softBreak => ({ rs with text := rs.text ++ [' '] }, md)
  | .other => (rs, md)

/-- One iteration of the outer block loop of `render_blocks`
(`hover_popover.rs` lines 266-404). -/
def renderBlock (parse : MdParse) (registry : Registry) (style : EditorStyle)
    (rs : RenderSt) (block : HoverBlock) : RenderSt :=
  match block.kind with
  | .plainText => { rs with text := new_paragraph rs.text ++ block.text.toList }
  | .markdown =>
    ((parse block.text).foldl (mdStep registry style) (rs, MdSt.init)).1
  | .code language =>
    match registry language with
    | some lang => render_code rs block.text lang style
    | none => { rs with text := rs.text ++ block.text.toList }

/-- Model of the `RenderedInfo` result record. -/
structure RenderedInfo where
  theme_id : Nat
  text : List Char
  highlights : List ((Nat × Nat) × HighlightStyle)
  link_ranges : List (Nat × Nat)
  link_urls : List String
deriving DecidableEq, Repr

/-- Model of `render_blocks` (`hover_popover.rs` lines 255-413), with the external
markdown parser and language registry as parameters. -/
def render_blocks (theme_id : Nat) (parse : MdParse) (registry : Registry)
    (style : EditorStyle) (blocks : List HoverBlock) : RenderedInfo :=
  let rs := blocks.foldl (renderBlock parse registry style)
    { text := [], highlights := [], link_ranges := [], link_urls := [] }
  { theme_id := theme_id, text := rs.text, highlights := rs.highlights,
    link_ranges := rs.link_ranges, link_urls := rs.link_urls }

/-- Model of `language::DiagnosticSeverity` (the variants matched by the
source's `DiagnosticPopover::render`). -/
inductive DiagnosticSeverity where
  | hint
  | information
  | warning
  | error
  | other
deriving DecidableEq, Repr

/-- Model of `language::Diagnostic`, restricted to the fields the source
reads (`message`, `severity`, `source`, `group_id`, `is_primary`). -/
structure Diagnostic where
  message : String
  severity : DiagnosticSeverity
  source : Option String
  group_id : Nat
  is_primary : Bool
deriving DecidableEq, Repr

/-- Model of `language::DiagnosticEntry<Anchor>`; anchors are modelled as `Nat`. -/
structure DiagnosticEntry where
  range : Nat × Nat
  diagnostic : Diagnostic
deriving DecidableEq, Repr

/-- Model of `DiagnosticPopover` (`hover_popover.rs` lines 567-571). -/
structure DiagnosticPopover where
  local_diagnostic : DiagnosticEntry
  primary_diagnostic : Option DiagnosticEntry
deriving DecidableEq, Repr

/-- Model of `InfoPopover` (`hover_popover.rs` lines 491-497); the
`ModelHandle<Project>` is an opaque handle modelled as a `Nat`. -/
structure InfoPopover where
  project : Nat
  symbol_range : Nat × Nat
  blocks : List HoverBlock
  rendered_content : Option RenderedInfo
deriving DecidableEq, Repr

/-- The task descriptor recorded in `hover_state.info_task`: the values the
spawned async closure captures. -/
structure TaskDesc where
  ignore_timeout : Bool
  buffer : Nat
  buffer_position : Nat
  multibuffer_offset : Nat
  anchor : Nat
  excerpt_id : Nat
  project : Nat
deriving DecidableEq, Repr

/-- Model of `HoverState` (`hover_popover.rs` lines 440-446). -/
structure HoverState where
  info_popover : Option InfoPopover
  diagnostic_popover : Option DiagnosticPopover
  triggered_from : Option Nat
  info_task : Option TaskDesc
deriving DecidableEq, Repr

/-- The slice of `Editor` state that `show_hover`/`hide_hover` read or write:
the hover state, the `pending_rename` flag, the optional project handle, and
the `HoverState`-keyed background highlight set
(`highlight_background::<HoverState>` / `clear_background_highlights`). -/
structure Editor where
  hover_state : HoverState
  pending_rename : Bool
  project : Option Nat
  background : Option (List (Nat × Nat))
deriving DecidableEq, Repr

/-- The document/buffer environment used by `show_hover`, provided by the
external multibuffer model: display-point→offset conversion, text-anchor and
excerpt resolution, anchor construction, anchor→offset conversion, anchor
placement inside an excerpt, and anchor comparison. Anchors, offsets, display
points, buffers and excerpt ids are all modelled as `Nat`. -/
structure Env where
  point_to_offset : Nat → Nat
  text_anchor_for_position : Nat → Option (Nat × Nat)
  excerpt_containing : Nat → Option Nat
  anchor_at : Nat → Nat
  anchor_to_offset : Nat → Nat
  anchor_in_excerpt : Nat → Nat → Nat
  anchor_cmp : Nat → Nat → Ordering

/-- Model of `hide_hover` (`hover_popover.rs` lines 55-69): take both popovers, clear
the task and `triggered_from`, clear the background highlights; return whether
a popover had been visible. -/
def hide_hover (e : Editor) : Editor × Bool :=
  let did_hide := e.hover_state.info_popover.isSome
    || e.hover_state.diagnostic_popover.isSome
  ({ e with
      hover_state :=
        { info_popover := none, diagnostic_popover := none,
          triggered_from := none, info_task := none }
      background := none },
    did_hide)

/-- Model of `show_hover` (`hover_popover.rs` lines 74-253), up to and including
spawning the async task; the returned `Option TaskDesc` is the task stored
into `hover_state.info_task` (`none` on the early-return paths). -/
def show_hover (env : Env) (editor : Editor) (point : Nat)
    (ignore_timeout : Bool) : Editor × Option TaskDesc :=
  if editor.pending_rename then (editor, none)
  else
    let multibuffer_offset := env.point_to_offset point
    match env.text_anchor_for_position multibuffer_offset with
    | none => (editor, none)
    | some (buffer, buffer_position) =>
      match env.excerpt_containing multibuffer_offset with
      | none => (editor, none)
      | some excerpt_id =>
        match editor.project with
        | none => (editor, none)
        | some project =>
          -- Same-symbol suppression / clearing (lines 113-125);
          -- `none` models the early `return`.
          let step : Option Editor :=
            if ¬ignore_timeout then
              match editor.hover_state.info_popover with
              | some ip =>
                if env.anchor_to_offset ip.symbol_range.1 ≤ multibuffer_offset
                    ∧ multibuffer_offset < env.anchor_to_offset ip.symbol_range.2
                then none
                else some (hide_hover editor).1
              | none => some editor
            else some editor
          match step with
          | none => (editor, none)
          | some editor1 =>
            let anchor := env.anchor_at multibuffer_offset
            let dup :=
              match editor1.hover_state.triggered_from with
              | some t => (env.anchor_cmp t anchor).isEq
              | none => false
            if dup then (editor1, none)
            else
              let task : TaskDesc :=
                { ignore_timeout := ignore_timeout, buffer := buffer,
                  buffer_position := buffer_position,
                  multibuffer_offset := multibuffer_offset, anchor := anchor,
                  excerpt_id := excerpt_id, project := project }
              ({ editor1 with
                  hover_state := { editor1.hover_state with info_task := some task } },
                some task)

/-- The suspension and effect points of the async task spawned by
`show_hover` (`hover_popover.rs` lines 142-250), in program order. -/
inductive TaskEvent where
  | awaitRequestDelay
  | issueQuery
  | awaitTotalDelay
  | publishDiagnostic
  | awaitResponse
  | publishInfo
deriving DecidableEq, Repr

/-- The event order of the async task body: when `ignore_timeout` is false it
first awaits the request-delay timer (`HOVER_REQUEST_DELAY_MILLIS`) and keeps
the total-delay timer (`HOVER_DELAY_MILLIS`); it then issues the LSP hover
query, awaits the total-delay timer if present, publishes the diagnostic
popover, awaits the LSP response, and publishes the info popover. -/
def taskTrace (ignore_timeout : Bool) : List TaskEvent :=
  (if ¬ignore_timeout then [TaskEvent.awaitRequestDelay] else [])
    ++ [TaskEvent.issueQuery]
    ++ (if ¬ignore_timeout then [TaskEvent.awaitTotalDelay] else [])
    ++ [TaskEvent.publishDiagnostic, TaskEvent.awaitResponse,
        TaskEvent.publishInfo]

/-- Model of `project::Hover`, the LSP hover result: content blocks plus an
optional backend-declared range. -/
structure HoverResult where
  contents : List HoverBlock
  range : Option (Nat × Nat)
deriving DecidableEq, Repr

/-- The final state update of the async task (`hover_popover.rs` lines
203-245): `hover_request.await.ok().flatten()` collapses errors to `none`,
empty content suppresses the popover; on `some` the symbol range is the
backend range converted into the excerpt, else the collapsed triggering
anchor; the background highlight is set over the symbol range, or cleared when
there is no popover. -/
def applyResponse (env : Env) (project excerpt_id anchor : Nat) (e : Editor)
    (resp : Except String (Option HoverResult)) : Editor :=
  let hover_popover : Option InfoPopover :=
    match resp with
    | .error _ => none
    | .ok none => none
    | .ok (some hover_result) =>
      if hover_result.contents.isEmpty then none
      else
        let range :=
          match hover_result.range with
          | some r =>
            (env.anchor_in_excerpt excerpt_id r.1, env.anchor_in_excerpt excerpt_id r.2)
          | none => (anchor, anchor)
        some { project := project, symbol_range := range,
               blocks := hover_result.contents, rendered_content := none }
  match hover_popover with
  | some hp =>
    { e with
        background := some [hp.symbol_range]
        hover_state := { e.hover_state with info_popover := some hp } }
  | none =>
    { e with
        background := none
        hover_state := { e.hover_state with info_popover := none } }

/-- Sorted-disjoint chain of highlight spans: every range lies between `lo`
and `hi`, is well-formed, and starts no earlier than its predecessor ends. -/
def chainFrom (lo : Nat) : List ((Nat × Nat) × HighlightStyle) → Nat → Prop
  | [], hi => lo ≤ hi
  | x :: rest, hi => lo ≤ x.1.1 ∧ x.1.1 ≤ x.1.2 ∧ chainFrom x.1.2 rest hi

/-- Sorted-disjoint chain of (byte-range, highlight-id) pairs, the shape of a
language's `highlight_text` output. -/
def hlChain (lo : Nat) : List ((Nat × Nat) × Nat) → Nat → Prop
  | [], hi => lo ≤ hi
  | x :: rest, hi => lo ≤ x.1.1 ∧ x.1.1 ≤ x.1.2 ∧ hlChain x.1.2 rest hi

/-- A well-behaved syntax highlighter: on any content it yields sorted,
non-overlapping byte ranges inside the content. This is the interface contract
of the external `Language::highlight_text` (spec section 6). -/
def GoodLanguage (lang : Language) : Prop :=
  ∀ content, hlChain 0 (lang.highlight_text content) (strLen content)

/-- A registry whose languages are all well-behaved highlighters. -/
def GoodRegistry (registry : Registry) : Prop :=
  ∀ name lang, registry name = some lang → GoodLanguage lang

/-- The output invariant of the render accumulator: highlights form a
sorted-disjoint chain inside the text, the two link tables have equal length,
and every link range is a well-formed byte range into the text. -/
def RInv (rs : RenderSt) : Prop :=
  chainFrom 0 rs.highlights (strBytes rs.text) ∧
  rs.link_ranges.length = rs.link_urls.length ∧
  ∀ r ∈ rs.link_ranges, r.1 ≤ r.2 ∧ r.2 ≤ strBytes rs.text

/-- The invariant of the markdown scan state relative to the accumulator: an
open link's start offset lies inside the text, and any active fenced-code
language is a well-behaved highlighter. -/
def MInv (rs : RenderSt) (md : MdSt) : Prop :=
  (∀ s u, md.link_url = some (s, u) → s ≤ strBytes rs.text) ∧
  (∀ lang, md.current_language = some lang → GoodLanguage lang)

/-- The paragraph separator `new_paragraph` appends: nothing on empty text,
one newline on newline-terminated text, two newlines otherwise. -/
def npSep (t : List Char) : List Char :=
  if t = [] then []
  else if t.getLast? = some '\n' then ['\n'] else ['\n', '\n']

/-- Concrete environment in which every lookup succeeds; display points,
offsets and anchors coincide. -/
def envC : Env :=
  { point_to_offset := id, text_anchor_for_position := fun o => some (0, o),
    excerpt_containing := fun _ => some 0, anchor_at := id,
    anchor_to_offset := id, anchor_in_excerpt := fun _ a => a,
    anchor_cmp := compare }

/-- Concrete environment in which text-anchor resolution fails. -/
def envNone : Env :=
  { envC with text_anchor_for_position := fun _ => none }

/-- Concrete editor: empty hover state, no pending rename, a project. -/
def editor0 : Editor :=
  { hover_state := { info_popover := none, diagnostic_popover := none,
                     triggered_from := none, info_task := none },
    pending_rename := false, project := some 0, background := none }

/-- Concrete diagnostic popover. -/
def dpC : DiagnosticPopover :=
  { local_diagnostic :=
      { range := (1, 2),
        diagnostic := { message := "m", severity := DiagnosticSeverity.error,
                        source := none, group_id := 0, is_primary := false } },
    primary_diagnostic := none }

/-- Concrete editor currently showing only a diagnostic popover. -/
def editorDiag : Editor :=
  { editor0 with
      hover_state := { editor0.hover_state with diagnostic_popover := some dpC } }

/-- Concrete info popover whose symbol range is the offsets 10..12. -/
def ipC : InfoPopover :=
  { project := 0, symbol_range := (10, 12), blocks := [], rendered_content := none }

/-- Concrete editor currently showing only an info popover over 10..12. -/
def editorInfo : Editor :=
  { editor0 with
      hover_state := { editor0.hover_state with info_popover := some ipC } }

/-- Markdown parser that yields no events, registry with no languages, style
with an empty syntax map: concrete external collaborators for witnesses. -/
def parse0 : MdParse := fun _ => []

/-- Registry with no languages. -/
def reg0 : Registry := fun _ => none

/-- Style whose syntax map resolves no highlight id. -/
def style0 : EditorStyle := { syn := fun _ => none }

/-- The CommonMark event stream of `"one [two](the-url) three"`. -/
def linkEvents : List MdEvent :=
  [ .start .paragraph, .text "one ", .start (.link "the-url"), .text "two",
    .endTag (.link "the-url"), .text " three", .endTag .paragraph ]

/-- Concrete markdown parser that parses `"one [two](the-url) three"` to its
CommonMark event stream. -/
def parse9 : MdParse := fun s =>
  if s = "one [two](the-url) three" then linkEvents else []

/-- The underline style the source attaches to link text
(`Underline \x7b thickness: 1.0.into(), ..Default::default() \x7d`). -/
def ulStyle : HighlightStyle := { underline := some { thickness := 1 } }

theorem strBytes_append (a b : List Char) :
    strBytes (a ++ b) = strBytes a + strBytes b := by
  simp [strBytes]

theorem strBytes_le_append (a b : List Char) :
    strBytes a ≤ strBytes (a ++ b) := by
  rw [strBytes_append]; omega

theorem new_paragraph_eq (t : List Char) : new_paragraph t = t ++ npSep t := by
  unfold new_paragraph npSep
  by_cases h : t = []
  · simp [h]
  · by_cases h2 : t.getLast? = some '\n' <;> simp [h, h2]

theorem strBytes_le_new_paragraph (t : List Char) :
    strBytes t ≤ strBytes (new_paragraph t) := by
  rw [new_paragraph_eq]; exact strBytes_le_append t (npSep t)

theorem chainFrom_le :
    ∀ {hs : List ((Nat × Nat) × HighlightStyle)} {lo hi : Nat},
      chainFrom lo hs hi → lo ≤ hi := by
  intro hs
  induction hs with
  | nil => intro lo hi h; exact h
  | cons x rest ih =>
    intro lo hi h
    exact le_trans (le_trans h.1 h.2.1) (ih h.2.2)

theorem chainFrom_mono :
    ∀ {hs : List ((Nat × Nat) × HighlightStyle)} {lo hi hi' : Nat},
      chainFrom lo hs hi → hi ≤ hi' → chainFrom lo hs hi' := by
  intro hs
  induction hs with
  | nil => intro lo hi hi' h hle; exact le_trans h hle
  | cons x rest ih =>
    intro lo hi hi' h hle
    exact ⟨h.1, h.2.1, ih h.2.2 hle⟩

theorem chainFrom_append_one :
    ∀ {hs : List ((Nat × Nat) × HighlightStyle)} {lo hi a b : Nat}
      {st : HighlightStyle},
      chainFrom lo hs hi → hi ≤ a → a ≤ b →
      chainFrom lo (hs ++ [((a, b), st)]) b := by
  intro hs
  induction hs with
  | nil =>
    intro lo hi a b st h h1 h2
    exact ⟨le_trans h h1, h2, Nat.le_refl b⟩
  | cons x rest ih =>
    intro lo hi a b st h h1 h2
    exact ⟨h.1, h.2.1, ih h.2.2 h1 h2⟩

theorem chainFrom_extend_last :
    ∀ {hs : List ((Nat × Nat) × HighlightStyle)} {lo hi a b c : Nat}
      {st : HighlightStyle},
      chainFrom lo hs hi → hs.getLast? = some ((a, b), st) → b ≤ c →
      chainFrom lo (hs.dropLast ++ [((a, c), st)]) c := by
  intro hs
  induction hs with
  | nil => intro lo hi a b c st h hl hbc; simp at hl
  | cons x rest ih =>
    intro lo hi a b c st h hl hbc
    cases rest with
    | nil =>
      simp only [List.getLast?_singleton, Option.some.injEq] at hl
      subst hl
      exact ⟨h.1, le_trans h.2.1 hbc, Nat.le_refl c⟩
    | cons y rest2 =>
      have hl' : (y :: rest2).getLast? = some ((a, b), st) := by
        simpa [List.getLast?_cons_cons] using hl
      exact ⟨h.1, h.2.1, ih h.2.2 hl' hbc⟩

theorem chainFrom_bounds :
    ∀ {hs : List ((Nat × Nat) × HighlightStyle)} {lo hi : Nat},
      chainFrom lo hs hi → ∀ x ∈ hs, lo ≤ x.1.1 ∧ x.1.1 ≤ x.1.2 ∧ x.1.2 ≤ hi := by
  intro hs
  induction hs with
  | nil => intro lo hi _ x hx; simp at hx
  | cons y rest ih =>
    intro lo hi h x hx
    rcases List.mem_cons.mp hx with rfl | hx
    · exact ⟨h.1, h.2.1, chainFrom_le h.2.2⟩
    · have hb := ih h.2.2 x hx
      exact ⟨le_trans (le_trans h.1 h.2.1) hb.1, hb.2.1, hb.2.2⟩

theorem chainFrom_pairwise :
    ∀ {hs : List ((Nat × Nat) × HighlightStyle)} {lo hi : Nat},
      chainFrom lo hs hi → hs.Pairwise (fun x y => x.1.2 ≤ y.1.1) := by
  intro hs
  induction hs with
  | nil => intro lo hi _; exact List.Pairwise.nil
  | cons x rest ih =>
    intro lo hi h
    exact List.Pairwise.cons (fun y hy => (chainFrom_bounds h.2.2 y hy).1) (ih h.2.2)

theorem render_code_fold_chain (style : EditorStyle) (pl : Nat) :
    ∀ (l : List ((Nat × Nat) × Nat)) (acc : List ((Nat × Nat) × HighlightStyle))
      (c m : Nat),
      hlChain c l m → chainFrom 0 acc (pl + c) →
      chainFrom 0
        (l.foldl
          (fun acc rh =>
            match style.syn rh.2 with
            | some st => acc ++ [((pl + rh.1.1, pl + rh.1.2), st)]
            | none => acc)
          acc)
        (pl + m) := by
  intro l
  induction l with
  | nil =>
    intro acc c m h1 h2
    exact chainFrom_mono h2 (Nat.add_le_add_left h1 pl)
  | cons x rest ih =>
    intro acc c m h1 h2
    simp only [List.foldl_cons]
    cases hst : style.syn x.2 with
    | none =>
      simp only [hst]
      exact ih _ x.1.2 m h1.2.2
        (chainFrom_mono h2 (Nat.add_le_add_left (le_trans h1.1 h1.2.1) pl))
    | some st =>
      simp only [hst]
      exact ih _ x.1.2 m h1.2.2
        (chainFrom_append_one h2 (Nat.add_le_add_left h1.1 pl)
          (Nat.add_le_add_left h1.2.1 pl))

theorem render_code_text (rs : RenderSt) (content : String) (lang : Language)
    (style : EditorStyle) :
    (render_code rs content lang style).text = rs.text ++ content.toList := rfl

theorem render_code_links (rs : RenderSt) (content : String) (lang : Language)
    (style : EditorStyle) :
    (render_code rs content lang style).link_ranges = rs.link_ranges ∧
    (render_code rs content lang style).link_urls = rs.link_urls := ⟨rfl, rfl⟩

theorem render_code_inv {rs : RenderSt} {content : String} {lang : Language}
    {style : EditorStyle} (h : RInv rs) (hg : GoodLanguage lang) :
    RInv (render_code rs content lang style) := by
  have hb : strBytes (render_code rs content lang style).text
      = strBytes rs.text + strLen content := by
    rw [render_code_text, strBytes_append]; rfl
  refine ⟨?_, h.2.1, ?_⟩
  · rw [hb]
    have hchain : chainFrom 0 rs.highlights (strBytes rs.text + 0) := by
      simpa using h.1
    exact render_code_fold_chain style (strBytes rs.text)
      (lang.highlight_text content) rs.highlights 0 (strLen content)
      (hg content) hchain
  · intro r hr
    have := h.2.2 r hr
    rw [hb]
    exact ⟨this.1, le_trans this.2 (Nat.le_add_right _ _)⟩

theorem RInv_text_le {rs : RenderSt} (h : RInv rs) (t' : List Char)
    (hle : strBytes rs.text ≤ strBytes t')
    (hch : chainFrom 0 rs.highlights (strBytes t')) :
    RInv { rs with text := t' } :=
  ⟨hch, h.2.1, fun r hr => ⟨(h.2.2 r hr).1, le_trans (h.2.2 r hr).2 hle⟩⟩

theorem MInv_text_le {rs : RenderSt} {md : MdSt} (h : MInv rs md) (t' : List Char)
    (hle : strBytes rs.text ≤ strBytes t') :
    MInv { rs with text := t' } md :=
  ⟨fun s u hs => le_trans (h.1 s u hs) hle, h.2⟩

theorem MInv_md {rs : RenderSt} {md md' : MdSt} (h : MInv rs md)
    (hl : md'.link_url = md.link_url)
    (hc : md'.current_language = md.current_language) : MInv rs md' :=
  ⟨fun s u hs => h.1 s u (hl ▸ hs), fun lang hlang => h.2 lang (hc ▸ hlang)⟩

theorem mdStep_inv (registry : Registry) (style : EditorStyle) (rs : RenderSt)
    (md : MdSt) (e : MdEvent) (hreg : GoodRegistry registry)
    (h1 : RInv rs) (h2 : MInv rs md) :
    RInv (mdStep registry style (rs, md) e).1 ∧
    MInv (mdStep registry style (rs, md) e).1 (mdStep registry style (rs, md) e).2 := by
  cases e with
  | text t =>
    cases hcl : md.current_language with
    | some lang =>
      simp only [mdStep, hcl]
      refine ⟨render_code_inv h1 (h2.2 lang hcl), ?_, h2.2⟩
      intro s u hs
      refine le_trans (h2.1 s u hs) ?_
      rw [render_code_text]
      exact strBytes_le_append _ _
    | none =>
      simp only [mdStep, hcl]
      have hBB' : strBytes rs.text ≤ strBytes (rs.text ++ t.toList) :=
        strBytes_le_append _ _
      constructor
      · refine ⟨?_, h1.2.1, ?_⟩
        · by_cases hd : mdTextStyle md = HighlightStyle.default
          · rw [if_neg (by simp [hd])]
            exact chainFrom_mono h1.1 hBB'
          · rw [if_pos hd]
            cases hlast : rs.highlights.getLast? with
            | none =>
              simp only [hlast]
              exact chainFrom_append_one h1.1 (Nat.le_refl _) hBB'
            | some x =>
              obtain ⟨⟨a, b⟩, ls⟩ := x
              simp only [hlast]
              by_cases hcond : b = strBytes rs.text ∧ ls = mdTextStyle md
              · rw [if_pos hcond]
                refine chainFrom_extend_last h1.1 hlast ?_
                rw [hcond.1]; exact hBB'
              · rw [if_neg hcond]
                exact chainFrom_append_one h1.1 (Nat.le_refl _) hBB'
        · intro r hr
          exact ⟨(h1.2.2 r hr).1, le_trans (h1.2.2 r hr).2 hBB'⟩
      · exact ⟨fun s u hs => le_trans (h2.1 s u hs) hBB', h2.2⟩
  | code t =>
    simp only [mdStep]
    have hBB' : strBytes rs.text ≤ strBytes (rs.text ++ t.toList) :=
      strBytes_le_append _ _
    constructor
    · refine ⟨?_, h1.2.1, ?_⟩
      · rw [strBytes_append]
        exact chainFrom_append_one h1.1 (Nat.le_refl _) (Nat.le_add_right _ _)
      · intro r hr
        exact ⟨(h1.2.2 r hr).1, le_trans (h1.2.2 r hr).2 hBB'⟩
    · exact ⟨fun s u hs => le_trans (h2.1 s u hs) hBB', h2.2⟩
  | start tag =>
    cases tag with
    | paragraph =>
      simp only [mdStep]
      exact ⟨RInv_text_le h1 _ (strBytes_le_new_paragraph _)
          (chainFrom_mono h1.1 (strBytes_le_new_paragraph _)),
        MInv_text_le h2 _ (strBytes_le_new_paragraph _)⟩
    | heading =>
      simp only [mdStep]
      exact ⟨RInv_text_le h1 _ (strBytes_le_new_paragraph _)
          (chainFrom_mono h1.1 (strBytes_le_new_paragraph _)),
        MInv_md (MInv_text_le h2 _ (strBytes_le_new_paragraph _)) rfl rfl⟩
    | codeBlock kind =>
      cases kind with
      | indented =>
        simp only [mdStep]
        exact ⟨RInv_text_le h1 _ (strBytes_le_new_paragraph _)
            (chainFrom_mono h1.1 (strBytes_le_new_paragraph _)),
          MInv_text_le h2 _ (strBytes_le_new_paragraph _)⟩
      | fenced language =>
        simp only [mdStep]
        refine ⟨RInv_text_le h1 _ (strBytes_le_new_paragraph _)
            (chainFrom_mono h1.1 (strBytes_le_new_paragraph _)), ?_, ?_⟩
        · intro s u hs
          exact le_trans (h2.1 s u hs) (strBytes_le_new_paragraph _)
        · intro lang hlang
          exact hreg language lang hlang
    | emphasis =>
      simp only [mdStep]
      exact ⟨h1, MInv_md h2 rfl rfl⟩
    | strong =>
      simp only [mdStep]
      exact ⟨h1, MInv_md h2 rfl rfl⟩
    | link url =>
      simp only [mdStep]
      refine ⟨h1, ?_, h2.2⟩
      intro s u hs
      simp only [Option.some.injEq, Prod.mk.injEq] at hs
      rw [← hs.1]
    | list number =>
      simp only [mdStep]
      exact ⟨h1, MInv_md h2 rfl rfl⟩
    | item =>
      simp only [mdStep]
      cases hlast : md.list_stack.getLast? with
      | none => exact ⟨h1, h2⟩
      | some list_state =>
        simp only [hlast]
        cases list_state with
        | none =>
          have hle : strBytes rs.text ≤ strBytes
              ((new_paragraph rs.text ++
                  (List.replicate (md.list_stack.length - 1) "  ".toList).flatten)
                ++ "* ".toList) :=
            le_trans (strBytes_le_new_paragraph _)
              (le_trans (strBytes_le_append _ _) (strBytes_le_append _ _))
          exact ⟨RInv_text_le h1 _ hle (chainFrom_mono h1.1 hle),
            MInv_text_le h2 _ hle⟩
        | some number =>
          have hle : strBytes rs.text ≤ strBytes
              (((new_paragraph rs.text ++
                  (List.replicate (md.list_stack.length - 1) "  ".toList).flatten)
                ++ (toString number).toList) ++ ". ".toList) :=
            le_trans (strBytes_le_new_paragraph _)
              (le_trans (strBytes_le_append _ _)
                (le_trans (strBytes_le_append _ _) (strBytes_le_append _ _)))
          exact ⟨RInv_text_le h1 _ hle (chainFrom_mono h1.1 hle),
            MInv_md (MInv_text_le h2 _ hle) rfl rfl⟩
    | other =>
      simp only [mdStep]
      exact ⟨h1, h2⟩
  | endTag tag =>
    cases tag with
    | heading =>
      simp only [mdStep]
      exact ⟨h1, MInv_md h2 rfl rfl⟩
    | codeBlock kind =>
      simp only [mdStep]
      exact ⟨h1, h2.1, fun lang hlang => by simp at hlang⟩
    | emphasis =>
      simp only [mdStep]
      exact ⟨h1, MInv_md h2 rfl rfl⟩
    | strong =>
      simp only [mdStep]
      exact ⟨h1, MInv_md h2 rfl rfl⟩
    | link url =>
      simp only [mdStep]
      cases hlu : md.link_url with
      | none => exact ⟨h1, h2⟩
      | some p =>
        obtain ⟨s0, u0⟩ := p
        simp only [hlu]
        refine ⟨⟨h1.1, ?_, ?_⟩, ?_, h2.2⟩
        · simp [h1.2.1]
        · intro r hr
          rcases List.mem_append.mp hr with hr | hr
          · exact h1.2.2 r hr
          · simp only [List.mem_singleton] at hr
            subst hr
            exact ⟨h2.1 s0 u0 hlu, Nat.le_refl _⟩
        · intro s u hs
          simp at hs
    | list number =>
      simp only [mdStep]
      exact ⟨h1, MInv_md h2 rfl rfl⟩
    | paragraph =>
      simp only [mdStep]
      exact ⟨h1, h2⟩
    | item =>
      simp only [mdStep]
      exact ⟨h1, h2⟩
    | other =>
      simp only [mdStep]
      exact ⟨h1, h2⟩
  | hardBreak =>
    simp only [mdStep]
    exact ⟨RInv_text_le h1 _ (strBytes_le_append _ _)
        (chainFrom_mono h1.1 (strBytes_le_append _ _)),
      MInv_text_le h2 _ (strBytes_le_append _ _)⟩
  | softBreak =>
    simp only [mdStep]
    exact ⟨RInv_text_le h1 _ (strBytes_le_append _ _)
        (chainFrom_mono h1.1 (strBytes_le_append _ _)),
      MInv_text_le h2 _ (strBytes_le_append _ _)⟩
  | other =>
    simp only [mdStep]
    exact ⟨h1, h2⟩

theorem mdFold_inv (registry : Registry) (style : EditorStyle)
    (events : List MdEvent) :
    ∀ (s : RenderSt × MdSt), GoodRegistry registry → RInv s.1 → MInv s.1 s.2 →
      RInv ((events.foldl (mdStep registry style) s).1) ∧
      MInv ((events.foldl (mdStep registry style) s).1)
        ((events.foldl (mdStep registry style) s).2) := by
  induction events with
  | nil => intro s _ hr hm; exact ⟨hr, hm⟩
  | cons e rest ih =>
    intro s hreg hr hm
    simp only [List.foldl_cons]
    have step := mdStep_inv registry style s.1 s.2 e hreg hr hm
    exact ih _ hreg step.1 step.2

theorem renderBlock_inv (parse : MdParse) (registry : Registry)
    (style : EditorStyle) (block : HoverBlock) {rs : RenderSt}
    (hreg : GoodRegistry registry) (h : RInv rs) :
    RInv (renderBlock parse registry style rs block) := by
  cases hk : block.kind with
  | plainText =>
    simp only [renderBlock, hk]
    have hle : strBytes rs.text
        ≤ strBytes (new_paragraph rs.text ++ block.text.toList) :=
      le_trans (strBytes_le_new_paragraph rs.text)
        (strBytes_le_append (new_paragraph rs.text) block.text.toList)
    exact RInv_text_le h _ hle (chainFrom_mono h.1 hle)
  | markdown =>
    simp only [renderBlock, hk]
    refine (mdFold_inv registry style (parse block.text) (rs, MdSt.init) hreg h
      ⟨?_, ?_⟩).1
    · intro s u hs; simp [MdSt.init] at hs
    · intro lang hlang; simp [MdSt.init] at hlang
  | code language =>
    simp only [renderBlock, hk]
    cases hr : registry language with
    | some lang =>
      simp only [hr]
      exact render_code_inv h (hreg language lang hr)
    | none =>
      simp only [hr]
      exact RInv_text_le h _ (strBytes_le_append _ _)
        (chainFrom_mono h.1 (strBytes_le_append _ _))

theorem blocks_fold_inv (parse : MdParse) (registry : Registry)
    (style : EditorStyle) (blocks : List HoverBlock) :
    ∀ rs, GoodRegistry registry → RInv rs →
      RInv (blocks.foldl (renderBlock parse registry style) rs) := by
  induction blocks with
  | nil => intro rs _ h; exact h
  | cons b rest ih =>
    intro rs hreg h
    simp only [List.foldl_cons]
    exact ih _ hreg (renderBlock_inv parse registry style b hreg h)

theorem render_blocks_inv (theme_id : Nat) (parse : MdParse)
    (registry : Registry) (style : EditorStyle) (blocks : List HoverBlock)
    (hreg : GoodRegistry registry) :
    chainFrom 0 (render_blocks theme_id parse registry style blocks).highlights
      (strBytes (render_blocks theme_id parse registry style blocks).text) ∧
    (render_blocks theme_id parse registry style blocks).link_ranges.length
      = (render_blocks theme_id parse registry style blocks).link_urls.length ∧
    ∀ r ∈ (render_blocks theme_id parse registry style blocks).link_ranges,
      r.1 ≤ r.2 ∧
      r.2 ≤ strBytes (render_blocks theme_id parse registry style blocks).text := by
  have h0 : RInv (RenderSt.mk [] [] [] []) := by
    refine ⟨Nat.le_refl 0, rfl, ?_⟩
    intro r hr; simp at hr
  exact blocks_fold_inv parse registry style blocks _ hreg h0

/-- C1: the claim says the first non-suppressed trigger records
`triggered_from` and that a later trigger at an anchor-equal location does
nothing further, so at most one backend query is issued. The code never
assigns `Some` to `triggered_from` (it is only ever cleared), so the dedup
check at `hover_popover.rs` line 133 is dead code: here two successive
triggers at the same anchor (5) with no intervening dismiss each spawn a
task whose body issues an LSP hover query, and `triggered_from` stays
`none` after the first trigger. -/
theorem c1_trigger_dedup_dead :
    (show_hover envC editor0 5 true).2
      = some (TaskDesc.mk true 0 5 5 5 0 0) ∧
    (show_hover envC editor0 5 true).1.hover_state.triggered_from = none ∧
    (show_hover envC (show_hover envC editor0 5 true).1 5 true).2
      = some (TaskDesc.mk true 0 5 5 5 0 0) ∧
    TaskEvent.issueQuery ∈ taskTrace true := by decide

/-- C2 counterexample: with `immediate=false` the diagnostic-publication step
of the task runs only after the total-delay timer has been awaited, so it is
gated by the delay timers, contrary to the claim of "no delay regardless of
the immediate flag". -/
theorem c2_diagnostic_delay_cex :
    taskTrace false
      = [TaskEvent.awaitRequestDelay, TaskEvent.issueQuery,
         TaskEvent.awaitTotalDelay, TaskEvent.publishDiagnostic,
         TaskEvent.awaitResponse, TaskEvent.publishInfo] ∧
    (taskTrace false).indexOf TaskEvent.awaitTotalDelay
      < (taskTrace false).indexOf TaskEvent.publishDiagnostic := by decide

/-- C2 (amended): the diagnostic popover is always published before the
backend hover response is awaited; with `immediate=true` no timer gates it,
but with `immediate=false` it is published only after both the request-delay
and the total-delay timers have elapsed. -/
theorem c2_diagnostic_before_response :
    (∀ b, (taskTrace b).indexOf TaskEvent.publishDiagnostic
        < (taskTrace b).indexOf TaskEvent.awaitResponse) ∧
    taskTrace true
      = [TaskEvent.issueQuery, TaskEvent.publishDiagnostic,
         TaskEvent.awaitResponse, TaskEvent.publishInfo] ∧
    (taskTrace false).indexOf TaskEvent.awaitRequestDelay
      < (taskTrace false).indexOf TaskEvent.publishDiagnostic ∧
    (taskTrace false).indexOf TaskEvent.awaitTotalDelay
      < (taskTrace false).indexOf TaskEvent.publishDiagnostic := by decide

/-- C3: with `immediate=false` the task awaits the total-delay timer before
awaiting the backend response and publishing the info popover, so the info
popover is never published before the total delay has elapsed even if the
backend answered earlier; with `immediate=true` no delay timer occurs in the
task at all and the info popover is published right after the response. -/
theorem c3_info_gated_by_total_delay :
    TaskEvent.awaitTotalDelay ∈ taskTrace false ∧
    (taskTrace false).indexOf TaskEvent.awaitTotalDelay
      < (taskTrace false).indexOf TaskEvent.publishInfo ∧
    TaskEvent.awaitRequestDelay ∉ taskTrace true ∧
    TaskEvent.awaitTotalDelay ∉ taskTrace true ∧
    taskTrace true
      = [TaskEvent.issueQuery, TaskEvent.publishDiagnostic,
         TaskEvent.awaitResponse, TaskEvent.publishInfo] := by decide

/-- C4 counterexample: a trigger with `immediate=false` that is not
suppressed by the same-symbol check (no info popover is shown, only a
diagnostic popover) proceeds to spawn a task without clearing the shown
diagnostic popover, so "clears any currently shown popovers" fails. -/
theorem c4_no_clear_cex :
    (show_hover envC editorDiag 5 false).1.hover_state.diagnostic_popover
      = some dpC ∧
    (show_hover envC editorDiag 5 false).2.isSome = true := by decide

/-- C4 (amended): for every trigger call that reaches the same-symbol check
with `immediate=false` and an info popover currently shown whose symbol range
does not contain the hovered offset, `show_hover` synchronously clears both
popovers (info and diagnostic) and the background highlight of the previous
symbol range (via `hide_hover`) before proceeding to spawn a task. -/
theorem c4_clear_on_other_symbol (env : Env) (e : Editor) (point : Nat)
    (ip : InfoPopover) (bu bp ex pr : Nat)
    (hpr : e.pending_rename = false)
    (hta : env.text_anchor_for_position (env.point_to_offset point)
      = some (bu, bp))
    (hex : env.excerpt_containing (env.point_to_offset point) = some ex)
    (hp : e.project = some pr)
    (hip : e.hover_state.info_popover = some ip)
    (hout : ¬(env.anchor_to_offset ip.symbol_range.1 ≤ env.point_to_offset point
      ∧ env.point_to_offset point < env.anchor_to_offset ip.symbol_range.2)) :
    (show_hover env e point false).1.hover_state.info_popover = none ∧
    (show_hover env e point false).1.hover_state.diagnostic_popover = none ∧
    (show_hover env e point false).1.background = none ∧
    (show_hover env e point false).2.isSome = true := by
  simp [show_hover, hide_hover, hpr, hta, hex, hp, hip, hout]

/-- Witness for the amended C4 at a concrete input: info popover over offsets
10..12, hover at offset 5 with `immediate=false`. -/
theorem c4_clear_on_other_symbol_witness :
    (show_hover envC editorInfo 5 false).1.hover_state.info_popover = none ∧
    (show_hover envC editorInfo 5 false).1.hover_state.diagnostic_popover
      = none ∧
    (show_hover envC editorInfo 5 false).1.background = none ∧
    (show_hover envC editorInfo 5 false).2.isSome = true :=
  c4_clear_on_other_symbol envC editorInfo 5 ipC 0 5 0 0 rfl rfl rfl rfl rfl
    (by decide)

/-- C5: an erroring backend response, a missing result, and a result with no
content blocks are handled identically by the task's final update: the info
popover is set to `none` and the symbol background highlight is cleared; the
handler is a total function into `Editor`, so no error reaches the caller of
the trigger. -/
theorem c5_error_treated_as_no_result (env : Env) (pr ex a : Nat) (e : Editor)
    (resp : Except String (Option HoverResult))
    (h : (∃ err, resp = Except.error err) ∨ resp = Except.ok none ∨
      ∃ hr, resp = Except.ok (some hr) ∧ hr.contents = []) :
    applyResponse env pr ex a e resp = applyResponse env pr ex a e (Except.ok none) ∧
    (applyResponse env pr ex a e resp).hover_state.info_popover = none ∧
    (applyResponse env pr ex a e resp).background = none := by
  rcases h with ⟨err, rfl⟩ | rfl | ⟨hr, rfl, hc⟩
  · exact ⟨rfl, rfl, rfl⟩
  · exact ⟨rfl, rfl, rfl⟩
  · simp [applyResponse, hc]

/-- Witness for C5 at a concrete input: an erroring response. -/
theorem c5_error_treated_as_no_result_witness :
    applyResponse envC 0 0 5 editor0 (Except.error "boom")
      = applyResponse envC 0 0 5 editor0 (Except.ok none) ∧
    (applyResponse envC 0 0 5 editor0
      (Except.error "boom")).hover_state.info_popover = none ∧
    (applyResponse envC 0 0 5 editor0 (Except.error "boom")).background
      = none :=
  c5_error_treated_as_no_result envC 0 0 5 editor0 (Except.error "boom")
    (Or.inl ⟨"boom", rfl⟩)

/-- C6: `hide_hover` leaves all four hover-state slots `none` (and the
background highlight cleared), returns `true` exactly when at least one
popover was present, and is idempotent: a second call returns the very same
editor together with `false`. -/
theorem c6_hide_hover_idempotent (e : Editor) :
    (hide_hover e).1.hover_state.info_popover = none ∧
    (hide_hover e).1.hover_state.diagnostic_popover = none ∧
    (hide_hover e).1.hover_state.triggered_from = none ∧
    (hide_hover e).1.hover_state.info_task = none ∧
    (hide_hover e).1.background = none ∧
    (hide_hover e).2 = (e.hover_state.info_popover.isSome
      || e.hover_state.diagnostic_popover.isSome) ∧
    hide_hover (hide_hover e).1 = ((hide_hover e).1, false) :=
  ⟨rfl, rfl, rfl, rfl, rfl, rfl, rfl⟩

/-- C7: for every block list and every registry whose languages satisfy the
external highlighter contract, the `RenderedInfo` produced by `render_blocks`
has only well-formed highlight byte ranges inside `text`, pairwise
non-overlapping; the two link tables have equal length and every link range is
a well-formed byte range into `text`; and a markdown text token whose computed
style equals the style of the highlight ending at the current buffer end
extends that highlight in place instead of pushing a new one. -/
theorem c7_rendered_info_invariants (theme_id : Nat) (parse : MdParse)
    (registry : Registry) (style : EditorStyle) (blocks : List HoverBlock)
    (hreg : GoodRegistry registry) :
    (∀ h ∈ (render_blocks theme_id parse registry style blocks).highlights,
      h.1.1 ≤ h.1.2 ∧
      h.1.2 ≤ strBytes (render_blocks theme_id parse registry style blocks).text) ∧
    (render_blocks theme_id parse registry style blocks).highlights.Pairwise
      (fun x y => x.1.2 ≤ y.1.1 ∨ y.1.2 ≤ x.1.1) ∧
    (render_blocks theme_id parse registry style blocks).link_ranges.length
      = (render_blocks theme_id parse registry style blocks).link_urls.length ∧
    (∀ r ∈ (render_blocks theme_id parse registry style blocks).link_ranges,
      r.1 ≤ r.2 ∧
      r.2 ≤ strBytes (render_blocks theme_id parse registry style blocks).text) ∧
    (∀ (rs : RenderSt) (md : MdSt) (t : String) (a b : Nat)
        (ls : HighlightStyle),
      md.current_language = none →
      mdTextStyle md ≠ HighlightStyle.default →
      rs.highlights.getLast? = some ((a, b), ls) →
      b = strBytes rs.text →
      ls = mdTextStyle md →
      ((mdStep registry style (rs, md) (MdEvent.text t)).1).highlights
        = rs.highlights.dropLast ++ [((a, strBytes rs.text + strLen t), ls)] ∧
      ((mdStep registry style (rs, md) (MdEvent.text t)).1).highlights.length
        = rs.highlights.length) := by
  obtain ⟨hc, hlen, hlr⟩ :=
    render_blocks_inv theme_id parse registry style blocks hreg
  refine ⟨?_, ?_, hlen, hlr, ?_⟩
  · intro h hh
    have hb := chainFrom_bounds hc h hh
    exact ⟨hb.2.1, hb.2.2⟩
  · exact (chainFrom_pairwise hc).imp (fun hxy => Or.inl hxy)
  · intro rs md t a b ls hcl hst hlast hb hls
    have heq : ((mdStep registry style (rs, md) (MdEvent.text t)).1).highlights
        = rs.highlights.dropLast ++ [((a, strBytes rs.text + strLen t), ls)] := by
      simp only [mdStep, hcl, hlast]
      rw [if_pos hst, if_pos ⟨hb, hls⟩, strBytes_append]
      rfl
    refine ⟨heq, ?_⟩
    have hne : rs.highlights ≠ [] := by
      intro h0; rw [h0] at hlast; simp at hlast
    have hpos : 0 < rs.highlights.length := List.length_pos.mpr hne
    rw [heq]
    simp only [List.length_append, List.length_dropLast, List.length_singleton]
    omega

/-- Witness for C7: the empty registry satisfies the highlighter contract and
the theorem applies at a concrete block list. -/
theorem c7_rendered_info_invariants_witness :
    GoodRegistry reg0 ∧
    (render_blocks 0 parse0 reg0 style0
        [HoverBlock.mk "hi" HoverBlockKind.plainText]).link_ranges.length
      = (render_blocks 0 parse0 reg0 style0
        [HoverBlock.mk "hi" HoverBlockKind.plainText]).link_urls.length :=
  have hreg : GoodRegistry reg0 := fun _ _ h => nomatch h
  ⟨hreg, (c7_rendered_info_invariants 0 parse0 reg0 style0
    [HoverBlock.mk "hi" HoverBlockKind.plainText] hreg).2.2.1⟩

/-- C8 counterexample: when the buffer already ends in a blank line,
processing a further `PlainText` block still appends a separator newline: on
`[PlainText "a\n\n", PlainText "b"]` the rendered text is `"a\n\n\nb"`, not
the `"a\n\nb"` the claim requires. -/
theorem c8_separator_cex :
    (render_blocks 0 parse0 reg0 style0
        [HoverBlock.mk "a\n\n" HoverBlockKind.plainText,
         HoverBlock.mk "b" HoverBlockKind.plainText]).text
      = "a\n\n\nb".toList ∧
    "a\n\n\nb".toList ≠ "a\n\nb".toList := by decide

/-- C8 (amended): a `PlainText` block appends its text verbatim, preceded by
a separator that is empty when the buffer is empty, one newline when the
non-empty buffer already ends in a newline (including when it already ends in
a blank line), and two newlines otherwise; the highlight and link tables are
untouched. -/
theorem c8_plaintext_separator (parse : MdParse) (registry : Registry)
    (style : EditorStyle) (rs : RenderSt) (s : String) :
    (renderBlock parse registry style rs
        (HoverBlock.mk s HoverBlockKind.plainText)).text
      = rs.text
        ++ (if rs.text = [] then []
            else if rs.text.getLast? = some '\n' then ['\n'] else ['\n', '\n'])
        ++ s.toList ∧
    (renderBlock parse registry style rs
        (HoverBlock.mk s HoverBlockKind.plainText)).highlights
      = rs.highlights ∧
    (renderBlock parse registry style rs
        (HoverBlock.mk s HoverBlockKind.plainText)).link_ranges
      = rs.link_ranges ∧
    (renderBlock parse registry style rs
        (HoverBlock.mk s HoverBlockKind.plainText)).link_urls
      = rs.link_urls := by
  refine ⟨?_, rfl, rfl, rfl⟩
  show new_paragraph rs.text ++ s.toList = _
  rw [new_paragraph_eq]
  rfl

/-- C9: on the single markdown block `"one [two](the-url) three"`, whose
CommonMark event stream is `linkEvents`, `render_blocks` yields flat text
`"one two three"`, exactly one highlight — an underline over bytes 4..7,
which are exactly the bytes of `"two"` — and the link tables `[(4, 7)]` and
`["the-url"]`. -/
theorem c9_link_example (parse : MdParse) (registry : Registry)
    (style : EditorStyle)
    (hp : parse "one [two](the-url) three" = linkEvents) :
    render_blocks 0 parse registry style
        [HoverBlock.mk "one [two](the-url) three" HoverBlockKind.markdown]
      = RenderedInfo.mk 0 "one two three".toList [((4, 7), ulStyle)]
          [(4, 7)] ["the-url"] := by
  simp only [render_blocks, List.foldl_cons, List.foldl_nil, renderBlock, hp]
  rfl

/-- Witness for C9: the concrete parser `parse9` produces `linkEvents` on the
input string, and the theorem applies. -/
theorem c9_link_example_witness :
    parse9 "one [two](the-url) three" = linkEvents ∧
    render_blocks 0 parse9 reg0 style0
        [HoverBlock.mk "one [two](the-url) three" HoverBlockKind.markdown]
      = RenderedInfo.mk 0 "one two three".toList [((4, 7), ulStyle)]
          [(4, 7)] ["the-url"] :=
  ⟨by decide, c9_link_example parse9 reg0 style0 (by decide)⟩

/-- C10: when the hovered position resolves to no text anchor, or to no
containing excerpt, or the editor has no project, `show_hover` is a silent
no-op: the editor (popovers, `triggered_from`, task, background highlight) is
returned unchanged and no task is spawned, hence no backend query is
issued. -/
theorem c10_unresolved_noop (env : Env) (e : Editor) (point : Nat) (b : Bool)
    (h : env.text_anchor_for_position (env.point_to_offset point) = none
      ∨ env.excerpt_containing (env.point_to_offset point) = none
      ∨ e.project = none) :
    show_hover env e point b = (e, none) := by
  by_cases hpr : e.pending_rename = true
  · simp [show_hover, hpr]
  · rcases h with h | h | h
    · simp [show_hover, hpr, h]
    · cases hta : env.text_anchor_for_position (env.point_to_offset point) with
      | none => simp [show_hover, hpr, hta]
      | some p =>
        obtain ⟨bu, bp⟩ := p
        simp [show_hover, hpr, hta, h]
    · cases hta : env.text_anchor_for_position (env.point_to_offset point) with
      | none => simp [show_hover, hpr, hta]
      | some p =>
        obtain ⟨bu, bp⟩ := p
        cases hex : env.excerpt_containing (env.point_to_offset point) with
        | none => simp [show_hover, hpr, hta, hex]
        | some ex => simp [show_hover, hpr, hta, hex, h]

/-- Witness for C10: in `envNone` text-anchor resolution fails, and the
trigger leaves `editor0` unchanged with no task. -/
theorem c10_unresolved_noop_witness :
    (envNone.text_anchor_for_position (envNone.point_to_offset 0) = none
      ∨ envNone.excerpt_containing (envNone.point_to_offset 0) = none
      ∨ editor0.project = none) ∧
    show_hover envNone editor0 0 false = (editor0, none) :=
  ⟨Or.inl rfl, c10_unresolved_noop envNone editor0 0 false (Or.inl rfl)⟩

end HoverPopover
